import Mathlib

/-!
Verification of the realtime state-replication core of
`ebiten-fullstack-template`: the protocol codec
(`internal/protocol/messages.go`), the shared state store and hub
(`internal/server/hub.go`), and the resilient client transport
(`internal/client/network.go`, `internal/client/game.go`).

Modelling conventions:
* JSON is modelled as a tree (`Json`); the byte-level printing/parsing
  of JSON text is abstracted away, so `encode` builds the envelope tree
  and `decode` inspects it.  Go `float64` coordinates are modelled as
  exact rationals `ℚ`; Go `uint8` color channels are `Nat` with the
  0..255 range enforced by the decoders, exactly as `json.Unmarshal`
  into `uint8` enforces it.
* Go maps are modelled as association lists with map semantics
  (insertion order is irrelevant in Go map iteration, so theorems about
  the store only mention key membership / lookup).
* A `*Client` pointer is modelled as a `Nat` reference (`Session.ref`);
  the client's buffered send channel is a list-valued queue with its
  capacity, and closing the channel coincides with removing the session
  from the hub's live set, as it does in every code path of `Hub.Run`.
* `protocol.Marshal` in Go can fail (e.g. `json.Marshal` rejects
  non-finite floats), and `Hub.Run` branches on that error.  The hub
  step function is therefore parameterized by a `Codec` whose marshal
  operations are fallible; the concrete tree-level codec never fails
  and instantiates it for the ordinary theorems.
* The hub's event loop consumes register/unregister/broadcast/stop
  events sequentially; randomness (spawn position, palette color) is
  determinized as data carried by the register event.
-/

/-! ## Protocol codec (internal/protocol/messages.go) -/

/-- JSON value tree.  Numbers are exact rationals. -/
inductive Json where
  | str (s : String)
  | num (q : ℚ)
  | arr (elems : List Json)
  | obj (fields : List (String × Json))

/-- Field lookup on a JSON object (first binding wins, as our encoders
never emit duplicate keys). -/
def Json.getField : Json → String → Option Json
  | .obj fields, key => fields.lookup key
  | _, _ => none

/-- MessageType discriminates protocol messages (Go: `type MessageType string`). -/
abbrev MessageType := String

/-- MsgWelcome is sent from server to the newly connected client. -/
def MsgWelcome : MessageType := "welcome"

/-- MsgJoin is broadcast by the server when a new player joins. -/
def MsgJoin : MessageType := "join"

/-- MsgLeave is broadcast by the server when a player disconnects. -/
def MsgLeave : MessageType := "leave"

/-- MsgPosition is sent from client to server with the player's position. -/
def MsgPosition : MessageType := "position"

/-- MsgState is broadcast by the server with the full game state. -/
def MsgState : MessageType := "state"

/-- Envelope wraps every protocol message with a type discriminator.
`data` is the raw (already-serialized) payload, a JSON value here. -/
structure Envelope where
  type : MessageType
  data : Json

/-- Color represents an RGB color; Go `uint8` channels are `Nat` here,
with the 0..255 range checked by the decoder. -/
structure Color where
  r : Nat
  g : Nat
  b : Nat
deriving DecidableEq

/-- WelcomeData is sent to a newly connected client. -/
structure WelcomeData where
  id : String
  color : Color
deriving DecidableEq

/-- JoinData is broadcast when a new player joins. -/
structure JoinData where
  id : String
  x : ℚ
  y : ℚ
  color : Color
deriving DecidableEq

/-- LeaveData is broadcast when a player disconnects. -/
structure LeaveData where
  id : String
deriving DecidableEq

/-- PositionData is sent by a client to update their position. -/
structure PositionData where
  x : ℚ
  y : ℚ
deriving DecidableEq

/-- PlayerInfo describes a single player inside a state snapshot. -/
structure PlayerInfo where
  id : String
  x : ℚ
  y : ℚ
  color : Color
deriving DecidableEq

/-- StateData contains the complete game state broadcast to all clients. -/
structure StateData where
  players : List PlayerInfo
deriving DecidableEq

/-- JSON encoding of `Color` (struct tags r, g, b). -/
def Color.toJson (c : Color) : Json :=
  .obj [("r", .num c.r), ("g", .num c.g), ("b", .num c.b)]

/-- JSON encoding of `WelcomeData` (struct tags id, color). -/
def WelcomeData.toJson (w : WelcomeData) : Json :=
  .obj [("id", .str w.id), ("color", w.color.toJson)]

/-- JSON encoding of `JoinData` (struct tags id, x, y, color). -/
def JoinData.toJson (j : JoinData) : Json :=
  .obj [("id", .str j.id), ("x", .num j.x), ("y", .num j.y), ("color", j.color.toJson)]

/-- JSON encoding of `LeaveData` (struct tag id). -/
def LeaveData.toJson (l : LeaveData) : Json :=
  .obj [("id", .str l.id)]

/-- JSON encoding of `PositionData` (struct tags x, y). -/
def PositionData.toJson (p : PositionData) : Json :=
  .obj [("x", .num p.x), ("y", .num p.y)]

/-- JSON encoding of `PlayerInfo` (struct tags id, x, y, color). -/
def PlayerInfo.toJson (p : PlayerInfo) : Json :=
  .obj [("id", .str p.id), ("x", .num p.x), ("y", .num p.y), ("color", p.color.toJson)]

/-- JSON encoding of `StateData` (struct tag players). -/
def StateData.toJson (s : StateData) : Json :=
  .obj [("players", .arr (s.players.map PlayerInfo.toJson))]

/-- Marshal encodes a typed protocol message into a JSON envelope:
`json.Marshal(Envelope{Type: msgType, Data: raw})` where `raw` is the
payload's own JSON encoding. -/
def Marshal (msgType : MessageType) (data : Json) : Json :=
  .obj [("type", .str msgType), ("data", data)]

/-- Unmarshal decodes a JSON envelope: parses the outer two-field
object only, leaving payload decoding to the caller. -/
def Unmarshal (b : Json) : Option Envelope :=
  match b.getField "type", b.getField "data" with
  | some (.str t), some d => some ⟨t, d⟩
  | _, _ => none

/-- Decoding a JSON number into a Go `uint8`: the number must be an
integer in [0, 256). -/
def jsonUInt8 (j : Json) : Option Nat :=
  match j with
  | .num q => if q.den = 1 ∧ 0 ≤ q.num ∧ q.num < 256 then some q.num.toNat else none
  | _ => none

/-- Decoding a JSON number into a Go `float64` coordinate (exact here). -/
def jsonNum (j : Json) : Option ℚ :=
  match j with
  | .num q => some q
  | _ => none

/-- Decoding a JSON string. -/
def jsonStr (j : Json) : Option String :=
  match j with
  | .str s => some s
  | _ => none

/-- Decode a `Color` payload (json.Unmarshal into the Color struct). -/
def decodeColor (j : Json) : Option Color :=
  match (j.getField "r").bind jsonUInt8, (j.getField "g").bind jsonUInt8,
        (j.getField "b").bind jsonUInt8 with
  | some r, some g, some b => some ⟨r, g, b⟩
  | _, _, _ => none

/-- Decode a `WelcomeData` payload. -/
def decodeWelcomeData (j : Json) : Option WelcomeData :=
  match (j.getField "id").bind jsonStr, (j.getField "color").bind decodeColor with
  | some id, some c => some ⟨id, c⟩
  | _, _ => none

/-- Decode a `JoinData` payload. -/
def decodeJoinData (j : Json) : Option JoinData :=
  match (j.getField "id").bind jsonStr, (j.getField "x").bind jsonNum,
        (j.getField "y").bind jsonNum, (j.getField "color").bind decodeColor with
  | some id, some x, some y, some c => some ⟨id, x, y, c⟩
  | _, _, _, _ => none

/-- Decode a `LeaveData` payload. -/
def decodeLeaveData (j : Json) : Option LeaveData :=
  match (j.getField "id").bind jsonStr with
  | some id => some ⟨id⟩
  | none => none

/-- Decode a `PositionData` payload. -/
def decodePositionData (j : Json) : Option PositionData :=
  match (j.getField "x").bind jsonNum, (j.getField "y").bind jsonNum with
  | some x, some y => some ⟨x, y⟩
  | _, _ => none

/-- Decode a single `PlayerInfo` element. -/
def decodePlayerInfo (j : Json) : Option PlayerInfo :=
  match (j.getField "id").bind jsonStr, (j.getField "x").bind jsonNum,
        (j.getField "y").bind jsonNum, (j.getField "color").bind decodeColor with
  | some id, some x, some y, some c => some ⟨id, x, y, c⟩
  | _, _, _, _ => none

/-- Decode a JSON array of players element-wise. -/
def decodePlayers : List Json → Option (List PlayerInfo)
  | [] => some []
  | j :: rest =>
    match decodePlayerInfo j, decodePlayers rest with
    | some p, some ps => some (p :: ps)
    | _, _ => none

/-- Decode a `StateData` payload. -/
def decodeStateData (j : Json) : Option StateData :=
  match j.getField "players" with
  | some (.arr xs) => (decodePlayers xs).map StateData.mk
  | _ => none

/-- Discriminated union of the five payload kinds. -/
inductive Payload where
  | welcome (w : WelcomeData)
  | join (j : JoinData)
  | leave (l : LeaveData)
  | position (p : PositionData)
  | state (s : StateData)
deriving DecidableEq

/-- The wire kind of each payload. -/
def Payload.kind : Payload → MessageType
  | .welcome _ => MsgWelcome
  | .join _ => MsgJoin
  | .leave _ => MsgLeave
  | .position _ => MsgPosition
  | .state _ => MsgState

/-- The JSON encoding of each payload (what the Go caller passes
through `json.Marshal` inside `protocol.Marshal`). -/
def Payload.toJson : Payload → Json
  | .welcome w => w.toJson
  | .join j => j.toJson
  | .leave l => l.toJson
  | .position p => p.toJson
  | .state s => s.toJson

/-- Payload decoding as consumers perform it: dispatch on the envelope
kind, then `json.Unmarshal` the raw data into the matching struct. -/
def decodePayload (kind : MessageType) (j : Json) : Option Payload :=
  if kind = MsgWelcome then (decodeWelcomeData j).map Payload.welcome
  else if kind = MsgJoin then (decodeJoinData j).map Payload.join
  else if kind = MsgLeave then (decodeLeaveData j).map Payload.leave
  else if kind = MsgPosition then (decodePositionData j).map Payload.position
  else if kind = MsgState then (decodeStateData j).map Payload.state
  else none

/-- Well-typedness of a color: Go `uint8` channels lie in [0, 256). -/
def Color.Wf (c : Color) : Prop := c.r < 256 ∧ c.g < 256 ∧ c.b < 256

instance : DecidablePred Color.Wf := fun c => by unfold Color.Wf; infer_instance

/-- Well-typedness of a payload: every embedded color is a valid uint8
triple (all other fields are exactly representable). -/
def Payload.Wf : Payload → Prop
  | .welcome w => w.color.Wf
  | .join j => j.color.Wf
  | .leave _ => True
  | .position _ => True
  | .state s => ∀ p ∈ s.players, p.color.Wf

instance : DecidablePred Payload.Wf := fun p => by
  cases p <;> (unfold Payload.Wf; infer_instance)

/-! ## Shared state store (internal/server/hub.go, GameState) -/

/-- PlayerState holds a single player's position and color. -/
structure PlayerState where
  x : ℚ
  y : ℚ
  color : Color
deriving DecidableEq

/-- GameState tracks all connected players keyed by player ID.  The Go
map is modelled as an association list with map semantics. -/
abbrev GameState := List (String × PlayerState)

/-- RemovePlayer removes a player from the game state (Go `delete`). -/
def RemovePlayer (gs : GameState) (id : String) : GameState :=
  gs.filter (fun e => e.1 ≠ id)

/-- AddPlayer registers a new player (Go map assignment
`gs.Players[id] = &PlayerState{...}`: insert or replace). -/
def AddPlayer (gs : GameState) (id : String) (x y : ℚ) (c : Color) : GameState :=
  (id, ⟨x, y, c⟩) :: RemovePlayer gs id

/-- UpdatePosition updates a player's position: if the entry exists its
x/y are overwritten (color kept); otherwise nothing changes. -/
def UpdatePosition (gs : GameState) (id : String) (x y : ℚ) : GameState :=
  gs.map (fun e => if e.1 = id then (e.1, ⟨x, y, e.2.color⟩) else e)

/-- Key set of the store (domain of the Players map). -/
def storeIds (gs : GameState) : List String := gs.map Prod.fst

/-! ## Resilient client transport (internal/client/network.go) -/

/-- Initial reconnect delay in seconds (Go: `reconnectInitial = 1 * time.Second`). -/
def reconnectInitial : Nat := 1

/-- Maximum reconnect delay in seconds (Go: `reconnectMax = 30 * time.Second`). -/
def reconnectMax : Nat := 30

/-- Delay update performed by `connectLoop` after sleeping on a dial
failure, translated literally:
`if delay < reconnectMax { delay *= 2; if delay > reconnectMax { delay = reconnectMax } }`. -/
def nextDelay (d : Nat) : Nat :=
  if d < reconnectMax then
    if d * 2 > reconnectMax then reconnectMax else d * 2
  else d

/-- Delays slept by `connectLoop` along a trace of dial outcomes
(`true` = dial succeeded, `false` = dial failed), starting from delay
state `d`.  A failure sleeps the current delay and then updates it; a
success sleeps nothing and resets the delay to `reconnectInitial`. -/
def connectLoopDelays : Nat → List Bool → List Nat
  | _, [] => []
  | _, true :: rest => connectLoopDelays reconnectInitial rest
  | d, false :: rest => d :: connectLoopDelays (nextDelay d) rest

/-- The delay-state register of `connectLoop` after a trace of outcomes. -/
def delayState : Nat → List Bool → Nat
  | d, [] => d
  | _, true :: rest => delayState reconnectInitial rest
  | d, false :: rest => delayState (nextDelay d) rest

/-- Inbound message channel capacity on the client
(Go: `make(chan protocol.Envelope, 256)`). -/
def messageChanCap : Nat := 256

/-- Enqueue performed by the client's `readLoop` on a decoded envelope:
`select { case n.messages <- env: default: log drop }` — append if the
bounded queue has room, otherwise drop the new envelope. -/
def readLoopEnqueue (q : List Envelope) (env : Envelope) : List Envelope :=
  if q.length < messageChanCap then q ++ [env] else q

/-! ## Client game message processing (internal/client/game.go) -/

/-- Map assignment `m[k] = v` on the client's players association list. -/
def assocSet (m : List (String × PlayerInfo)) (k : String) (v : PlayerInfo) :
    List (String × PlayerInfo) :=
  (k, v) :: m.filter (fun e => e.1 ≠ k)

/-- The fresh map built by the `MsgState` branch of
`Game.processMessages`: `newPlayers := make(map); for _, p := range
state.Players { newPlayers[p.ID] = p }`. -/
def buildPlayersMap (ps : List PlayerInfo) : List (String × PlayerInfo) :=
  ps.foldl (fun m p => assocSet m p.id p) []

/-- Effect of the `MsgState` branch on `g.players`: decode the raw
state payload; on decode error keep the old map (log and continue);
otherwise replace the whole map with the freshly built one. -/
def processStateMsg (players : List (String × PlayerInfo)) (data : Json) :
    List (String × PlayerInfo) :=
  match decodeStateData data with
  | none => players
  | some st => buildPlayersMap st.players

/-! ## Hub (internal/server/hub.go) -/

/-- Predefined player colors for the demo. -/
def playerColors : List Color :=
  [⟨231, 76, 60⟩, ⟨46, 204, 113⟩, ⟨52, 152, 219⟩, ⟨155, 89, 182⟩,
   ⟨241, 196, 15⟩, ⟨230, 126, 34⟩, ⟨26, 188, 156⟩, ⟨236, 240, 241⟩]

/-- Send-channel capacity of a client (Go: `sendBufferSize = 256` in
internal/server/client.go, `make(chan []byte, sendBufferSize)`). -/
def sendBufferSize : Nat := 256

/-- A message travelling on a session's send channel.  `none` models a
nil byte slice, which `buildStateMessage` can put on the channel when
`protocol.Marshal` fails (its error is discarded). -/
abbrev WireMsg := Option Json

/-- Server-side session (one `*Client`).  `ref` is the pointer
identity keying the hub's `clients` map; `queue` and `cap` model the
buffered send channel. -/
structure Session where
  ref : Nat
  id : String
  cap : Nat
  queue : List WireMsg

/-- Fallible marshalling interface used inside `Hub.Run`
(`protocol.Marshal` returns `([]byte, error)`; `none` is the error
case, which Go `json.Marshal` hits e.g. on non-finite floats). -/
structure Codec where
  marshalWelcome : WelcomeData → Option Json
  marshalJoin : JoinData → Option Json
  marshalLeave : LeaveData → Option Json
  marshalState : StateData → Option Json

/-- The concrete tree-level codec: `protocol.Marshal` applied to each
payload's JSON encoding (total at this level of abstraction). -/
def jsonCodec : Codec where
  marshalWelcome w := some (Marshal MsgWelcome w.toJson)
  marshalJoin j := some (Marshal MsgJoin j.toJson)
  marshalLeave l := some (Marshal MsgLeave l.toJson)
  marshalState s := some (Marshal MsgState s.toJson)

/-- Hub state: live client set (Go map keyed by `*Client`, modelled as
a list of sessions), the game state store, and whether the Run loop
has terminated via the stop channel. -/
structure Hub where
  clients : List Session
  state : GameState
  stopped : Bool

/-- A fresh hub (`NewHub`): no clients, empty game state, running. -/
def NewHub : Hub := ⟨[], [], false⟩

/-- Events consumed by `Hub.Run`.  Register carries the fresh client
plus the randomly drawn spawn position and palette color (randomness
determinized as event data). -/
inductive HEvent where
  | register (c : Session) (x y : ℚ) (color : Color)
  | unregister (ref : Nat)
  | broadcast (msg : WireMsg)
  | stop

/-- Queue-full-aware delivery (`Hub.broadcastBytes`, and the identical
inline loop of the broadcast case of `Hub.Run`): a session with room
gets the message appended (`select` send succeeds); a full session is
evicted — channel closed, deleted from the map, entity removed from
the store. -/
def broadcastBytes (msg : WireMsg) : List Session → GameState → List Session × GameState
  | [], gs => ([], gs)
  | c :: rest, gs =>
    if c.queue.length < c.cap then
      let r := broadcastBytes msg rest gs
      ({ c with queue := c.queue ++ [msg] } :: r.1, r.2)
    else
      broadcastBytes msg rest (RemovePlayer gs c.id)

/-- Direct send to one session's channel (`client.send <- msg` in the
register case of `Hub.Run`; the channel is fresh there so the send
does not block). -/
def sendTo (cs : List Session) (ref : Nat) (msg : WireMsg) : List Session :=
  cs.map (fun s => if s.ref = ref then { s with queue := s.queue ++ [msg] } else s)

/-- The `[]protocol.PlayerInfo` slice built by `Hub.buildStateMessage`
from the store snapshot. -/
def snapshotPlayers (gs : GameState) : List PlayerInfo :=
  gs.map (fun e => ⟨e.1, e.2.x, e.2.y, e.2.color⟩)

/-- `Hub.buildStateMessage`: marshal a State payload from the current
snapshot; the marshal error is ignored (`msg, _ :=`), so a failure
yields nil bytes (`none`). -/
def buildStateMessage (cd : Codec) (gs : GameState) : WireMsg :=
  cd.marshalState ⟨snapshotPlayers gs⟩

/-- Register case of `Hub.Run`: add to the live set, add the entity,
send Welcome (skipped if marshalling fails) then the State snapshot to
the new client's own queue, then broadcast Join (skipped if
marshalling fails) with queue-full-aware delivery. -/
def hubRegister (cd : Codec) (h : Hub) (c : Session) (x y : ℚ) (col : Color) : Hub :=
  let cs0 := h.clients ++ [c]
  let st := AddPlayer h.state c.id x y col
  let cs1 :=
    match cd.marshalWelcome ⟨c.id, col⟩ with
    | some m => sendTo cs0 c.ref (some m)
    | none => cs0
  let cs2 := sendTo cs1 c.ref (buildStateMessage cd st)
  match cd.marshalJoin ⟨c.id, x, y, col⟩ with
  | some m =>
    let r := broadcastBytes (some m) cs2 st
    ⟨r.1, r.2, h.stopped⟩
  | none => ⟨cs2, st, h.stopped⟩

/-- Unregister case of `Hub.Run`: only if the client is still in the
live set, remove it, close its channel, remove its entity, and
broadcast Leave (skipped if marshalling fails) to the remaining
sessions. -/
def hubUnregister (cd : Codec) (h : Hub) (ref : Nat) : Hub :=
  match h.clients.find? (fun s => s.ref = ref) with
  | none => h
  | some c =>
    let cs := h.clients.filter (fun s => s.ref ≠ ref)
    let st := RemovePlayer h.state c.id
    match cd.marshalLeave ⟨c.id⟩ with
    | some m =>
      let r := broadcastBytes (some m) cs st
      ⟨r.1, r.2, h.stopped⟩
    | none => ⟨cs, st, h.stopped⟩

/-- Stop case of `Hub.Run`: close every channel, delete every client,
remove every entity, then return from the loop. -/
def hubStop (h : Hub) : Hub :=
  ⟨[], h.clients.foldl (fun gs c => RemovePlayer gs c.id) h.state, true⟩

/-- One iteration of the `Hub.Run` event loop.  After the loop has
returned (stop processed), no further events are consumed. -/
def hubStep (cd : Codec) (h : Hub) (e : HEvent) : Hub :=
  if h.stopped then h
  else
    match e with
    | .stop => hubStop h
    | .register c x y col => hubRegister cd h c x y col
    | .unregister ref => hubUnregister cd h ref
    | .broadcast m =>
      let r := broadcastBytes m h.clients h.state
      ⟨r.1, r.2, h.stopped⟩

/-- Processing a whole event sequence. -/
def hubRun (cd : Codec) (h : Hub) (es : List HEvent) : Hub :=
  es.foldl (hubStep cd) h

/-- Ids of the live session set. -/
def clientIds (cs : List Session) : List String := cs.map Session.id

/-- Refs (pointer identities) of the live session set. -/
def clientRefs (cs : List Session) : List Nat := cs.map Session.ref

/-- Whether a session's send channel still has room (the `select` send
in the queue-full-aware delivery succeeds exactly in this case). -/
def hasSpace (c : Session) : Bool := c.queue.length < c.cap

/-- The hub's representation invariant: pointer identities and player
ids of live sessions are distinct, store keys are distinct, and live
session ids and store keys agree in membership. -/
structure HubInv (h : Hub) : Prop where
  refs_nodup : (h.clients.map Session.ref).Nodup
  ids_nodup : (h.clients.map Session.id).Nodup
  store_nodup : (storeIds h.state).Nodup
  mem_iff : ∀ s, s ∈ h.clients.map Session.id ↔ s ∈ storeIds h.state

/-- Precondition the hub's environment guarantees for an event: a
registered client is fresh (new pointer, new id from `nextPlayerID`). -/
def EventOk (h : Hub) : HEvent → Prop
  | .register c _ _ _ =>
    c.ref ∉ h.clients.map Session.ref ∧ c.id ∉ h.clients.map Session.id
  | _ => True

instance (h : Hub) (e : HEvent) : Decidable (EventOk h e) := by
  cases e <;> (unfold EventOk; infer_instance)

/-- Well-formedness of an event trace from a given hub state: every
register along the way is fresh. -/
def WfEvents (cd : Codec) : Hub → List HEvent → Prop
  | _, [] => True
  | h, e :: es => EventOk h e ∧ WfEvents cd (hubStep cd h e) es

instance instDecWfEvents (cd : Codec) :
    (h : Hub) → (es : List HEvent) → Decidable (WfEvents cd h es)
  | _, [] => .isTrue trivial
  | h, e :: es =>
    letI : Decidable (WfEvents cd (hubStep cd h e) es) :=
      instDecWfEvents cd (hubStep cd h e) es
    inferInstanceAs (Decidable (EventOk h e ∧ WfEvents cd (hubStep cd h e) es))

/-- A codec whose marshal operations always fail, exercising the error
branches of the hub (Go `json.Marshal` failing for every payload). -/
def failCodec : Codec where
  marshalWelcome _ := none
  marshalJoin _ := none
  marshalLeave _ := none
  marshalState _ := none

/-! Round-trip helper lemmas. -/

theorem jsonUInt8_roundtrip (n : Nat) (h : n < 256) : jsonUInt8 (.num n) = some n := by
  have hc : ((n : ℚ)).den = 1 ∧ 0 ≤ ((n : ℚ)).num ∧ ((n : ℚ)).num < 256 :=
    ⟨Rat.den_natCast n, by rw [Rat.num_natCast]; exact Int.natCast_nonneg n,
      by rw [Rat.num_natCast]; exact_mod_cast h⟩
  simp [jsonUInt8, hc, Rat.num_natCast, h]

theorem decodeColor_roundtrip (c : Color) (h : c.Wf) : decodeColor c.toJson = some c := by
  obtain ⟨hr, hg, hb⟩ := h
  simp [decodeColor, Color.toJson, Json.getField, List.lookup,
    jsonUInt8_roundtrip _ hr, jsonUInt8_roundtrip _ hg, jsonUInt8_roundtrip _ hb]

theorem decodeWelcomeData_roundtrip (w : WelcomeData) (h : w.color.Wf) :
    decodeWelcomeData w.toJson = some w := by
  simp [decodeWelcomeData, WelcomeData.toJson, Json.getField, List.lookup, jsonStr,
    decodeColor_roundtrip _ h]

theorem decodeJoinData_roundtrip (j : JoinData) (h : j.color.Wf) :
    decodeJoinData j.toJson = some j := by
  simp [decodeJoinData, JoinData.toJson, Json.getField, List.lookup, jsonStr, jsonNum,
    decodeColor_roundtrip _ h]

theorem decodeLeaveData_roundtrip (l : LeaveData) : decodeLeaveData l.toJson = some l := by
  simp [decodeLeaveData, LeaveData.toJson, Json.getField, List.lookup, jsonStr]

theorem decodePositionData_roundtrip (p : PositionData) :
    decodePositionData p.toJson = some p := by
  simp [decodePositionData, PositionData.toJson, Json.getField, List.lookup, jsonNum]

theorem decodePlayerInfo_roundtrip (p : PlayerInfo) (h : p.color.Wf) :
    decodePlayerInfo p.toJson = some p := by
  simp [decodePlayerInfo, PlayerInfo.toJson, Json.getField, List.lookup, jsonStr, jsonNum,
    decodeColor_roundtrip _ h]

theorem decodePlayers_roundtrip (ps : List PlayerInfo) (h : ∀ p ∈ ps, p.color.Wf) :
    decodePlayers (ps.map PlayerInfo.toJson) = some ps := by
  induction ps with
  | nil => rfl
  | cons p rest ih =>
    have hp : p.color.Wf := h p (List.mem_cons_self p rest)
    have hrest : ∀ q ∈ rest, q.color.Wf := fun q hq => h q (List.mem_cons_of_mem p hq)
    simp [decodePlayers, decodePlayerInfo_roundtrip _ hp, ih hrest]

theorem decodeStateData_roundtrip (s : StateData) (h : ∀ p ∈ s.players, p.color.Wf) :
    decodeStateData s.toJson = some s := by
  simp [decodeStateData, StateData.toJson, Json.getField, List.lookup,
    decodePlayers_roundtrip _ h]

theorem Unmarshal_Marshal (t : MessageType) (d : Json) :
    Unmarshal (Marshal t d) = some ⟨t, d⟩ := by
  simp [Unmarshal, Marshal, Json.getField, List.lookup]

/-- C2: for every message kind and every well-typed payload value,
decoding the bytes produced by `Marshal(kind, payload)` succeeds,
yields an envelope whose type equals the kind, and the envelope's data
field decodes back to a payload equal to the original — for all five
kinds Welcome, Join, Leave, Position, State. -/
theorem protocol_roundtrip (p : Payload) (hwf : p.Wf) :
    Unmarshal (Marshal p.kind p.toJson) = some ⟨p.kind, p.toJson⟩ ∧
    decodePayload p.kind p.toJson = some p := by
  refine ⟨Unmarshal_Marshal _ _, ?_⟩
  cases p with
  | welcome w =>
    simp [decodePayload, Payload.kind, Payload.toJson, decodeWelcomeData_roundtrip _ hwf]
  | join j =>
    simp [decodePayload, Payload.kind, Payload.toJson, MsgJoin, MsgWelcome,
      decodeJoinData_roundtrip _ hwf]
  | leave l =>
    simp [decodePayload, Payload.kind, Payload.toJson, MsgLeave, MsgWelcome, MsgJoin,
      decodeLeaveData_roundtrip]
  | position q =>
    simp [decodePayload, Payload.kind, Payload.toJson, MsgPosition, MsgWelcome, MsgJoin,
      MsgLeave, decodePositionData_roundtrip]
  | state s =>
    simp [decodePayload, Payload.kind, Payload.toJson, MsgState, MsgWelcome, MsgJoin,
      MsgLeave, MsgPosition, decodeStateData_roundtrip _ hwf]

/-- Witness for C2: the round trip evaluated at a concrete Join payload. -/
theorem protocol_roundtrip_witness :
    Unmarshal (Marshal (Payload.join ⟨"player-1", 120, 200, ⟨231, 76, 60⟩⟩).kind
        (Payload.join ⟨"player-1", 120, 200, ⟨231, 76, 60⟩⟩).toJson) =
      some ⟨(Payload.join ⟨"player-1", 120, 200, ⟨231, 76, 60⟩⟩).kind,
        (Payload.join ⟨"player-1", 120, 200, ⟨231, 76, 60⟩⟩).toJson⟩ ∧
    decodePayload (Payload.join ⟨"player-1", 120, 200, ⟨231, 76, 60⟩⟩).kind
        (Payload.join ⟨"player-1", 120, 200, ⟨231, 76, 60⟩⟩).toJson =
      some (Payload.join ⟨"player-1", 120, 200, ⟨231, 76, 60⟩⟩) :=
  protocol_roundtrip (Payload.join ⟨"player-1", 120, 200, ⟨231, 76, 60⟩⟩) (by decide)


theorem lookup_eq_none_iff (gs : GameState) (id : String) :
    gs.lookup id = none ↔ id ∉ storeIds gs := by
  induction gs with
  | nil => simp [storeIds]
  | cons e rest ih =>
    obtain ⟨k, v⟩ := e
    simp only [storeIds, List.map_cons, List.mem_cons] at ih ⊢
    by_cases h : id = k
    · simp [List.lookup_cons, h]
    · simp [List.lookup_cons, beq_false_of_ne h, h, ih]

/-- C7: `UpdatePosition` sets the position of entity `id` keeping its
color and all other entries intact when `id` is present, and leaves
the entire store unchanged (no error) when `id` is absent. -/
theorem updatePosition_spec (gs : GameState) (id : String) (x y : ℚ) :
    (gs.lookup id = none → UpdatePosition gs id x y = gs) ∧
    (∀ p, gs.lookup id = some p →
      (UpdatePosition gs id x y).lookup id = some ⟨x, y, p.color⟩) ∧
    (∀ j, j ≠ id → (UpdatePosition gs id x y).lookup j = gs.lookup j) := by
  refine ⟨?_, ?_, ?_⟩
  · intro habs
    induction gs with
    | nil => rfl
    | cons e rest ih =>
      obtain ⟨k, v⟩ := e
      rw [List.lookup_cons] at habs
      by_cases h : id = k
      · simp [h] at habs
      · simp only [beq_false_of_ne h] at habs
        simp only [UpdatePosition] at ih
        simp only [UpdatePosition, List.map_cons]
        rw [if_neg (fun hc => h hc.symm), ih habs]
  · intro p hp
    induction gs with
    | nil => simp at hp
    | cons e rest ih =>
      obtain ⟨k, v⟩ := e
      rw [List.lookup_cons] at hp
      by_cases h : id = k
      · subst h
        simp only [beq_self_eq_true, Option.some.injEq] at hp
        simp [UpdatePosition, List.lookup_cons, hp]
      · simp only [beq_false_of_ne h] at hp
        simp only [UpdatePosition] at ih
        simp only [UpdatePosition, List.map_cons]
        rw [if_neg (fun hc => h hc.symm), List.lookup_cons]
        simp only [beq_false_of_ne h]
        exact ih hp
  · intro j hj
    induction gs with
    | nil => rfl
    | cons e rest ih =>
      obtain ⟨k, v⟩ := e
      simp only [UpdatePosition] at ih
      simp only [UpdatePosition, List.map_cons]
      by_cases h : k = id
      · have hjk : j ≠ k := fun hc => hj (hc.trans h)
        rw [if_pos h, List.lookup_cons, List.lookup_cons]
        simp only [beq_false_of_ne hjk]
        exact ih
      · rw [if_neg h, List.lookup_cons, List.lookup_cons]
        by_cases hjk : j = k
        · simp [hjk]
        · simp only [beq_false_of_ne hjk]
          exact ih

/-- Witness for C7 at a concrete store: updating a missing id is the
identity; updating a present id moves it keeping its color and leaves
the other entry alone. -/
theorem updatePosition_spec_witness :
    UpdatePosition [("player-2", PlayerState.mk 0 0 ⟨1, 2, 3⟩)] "player-1" 5 6 =
      [("player-2", PlayerState.mk 0 0 ⟨1, 2, 3⟩)] ∧
    (UpdatePosition [("player-2", PlayerState.mk 0 0 ⟨1, 2, 3⟩),
        ("player-1", PlayerState.mk 7 8 ⟨4, 5, 6⟩)] "player-1" 5 6).lookup "player-1" =
      some ⟨5, 6, (PlayerState.mk 7 8 ⟨4, 5, 6⟩).color⟩ ∧
    (UpdatePosition [("player-2", PlayerState.mk 0 0 ⟨1, 2, 3⟩),
        ("player-1", PlayerState.mk 7 8 ⟨4, 5, 6⟩)] "player-1" 5 6).lookup "player-2" =
      ([("player-2", PlayerState.mk 0 0 ⟨1, 2, 3⟩),
        ("player-1", PlayerState.mk 7 8 ⟨4, 5, 6⟩)] : GameState).lookup "player-2" :=
  ⟨(updatePosition_spec [("player-2", PlayerState.mk 0 0 ⟨1, 2, 3⟩)] "player-1" 5 6).1 rfl,
   (updatePosition_spec [("player-2", PlayerState.mk 0 0 ⟨1, 2, 3⟩),
       ("player-1", PlayerState.mk 7 8 ⟨4, 5, 6⟩)] "player-1" 5 6).2.1
     (PlayerState.mk 7 8 ⟨4, 5, 6⟩) rfl,
   (updatePosition_spec [("player-2", PlayerState.mk 0 0 ⟨1, 2, 3⟩),
       ("player-1", PlayerState.mk 7 8 ⟨4, 5, 6⟩)] "player-1" 5 6).2.2
     "player-2" (by decide)⟩


theorem connectLoopDelays_append (d : Nat) (a b : List Bool) :
    connectLoopDelays d (a ++ b) =
      connectLoopDelays d a ++ connectLoopDelays (delayState d a) b := by
  induction a generalizing d with
  | nil => rfl
  | cons o rest ih =>
    cases o with
    | true => simp only [List.cons_append, connectLoopDelays, delayState, List.append_eq, ih]
    | false => simp only [List.cons_append, connectLoopDelays, delayState, List.append_eq, ih,
        List.cons_append]

theorem delayState_append (d : Nat) (a b : List Bool) :
    delayState d (a ++ b) = delayState (delayState d a) b := by
  induction a generalizing d with
  | nil => rfl
  | cons o rest ih =>
    cases o <;> simp only [List.cons_append, delayState, List.append_eq, ih]

theorem nextDelay_pow (j : Nat) :
    nextDelay (min (2 ^ j) reconnectMax) = min (2 ^ (j + 1)) reconnectMax := by
  rcases le_or_lt 30 (2 ^ j) with h | h
  · have h1 : min (2 ^ j) reconnectMax = 30 := by
      simp only [reconnectMax]; omega
    have h2 : (30 : Nat) ≤ 2 ^ (j + 1) := le_trans h (Nat.pow_le_pow_right (by norm_num) (Nat.le_succ j))
    have h3 : min (2 ^ (j + 1)) reconnectMax = 30 := by
      simp only [reconnectMax]; omega
    rw [h1, h3]
    simp [nextDelay, reconnectMax]
  · have hj : j < 5 := by
      by_contra hc
      push_neg at hc
      have : (2 : Nat) ^ 5 ≤ 2 ^ j := Nat.pow_le_pow_right (by norm_num) hc
      norm_num at this
      omega
    interval_cases j <;> decide

theorem connectLoopDelays_replicate (k j : Nat) :
    connectLoopDelays (min (2 ^ j) reconnectMax) (List.replicate k false) =
      (List.range k).map (fun i => min (2 ^ (j + i)) reconnectMax) := by
  induction k generalizing j with
  | zero => rfl
  | succ k ih =>
    rw [List.replicate_succ, List.range_succ_eq_map]
    simp only [connectLoopDelays, nextDelay_pow, ih (j + 1), List.map_cons, List.map_map]
    congr 1
    apply List.map_congr_left
    intro i _
    simp only [Function.comp_apply, Nat.succ_eq_add_one]
    have he : j + 1 + i = j + (i + 1) := by omega
    rw [he]

/-- C5: for every k, the reconnect delays over k consecutive dial
failures are exactly `min(1s * 2^i, 30s)` for i = 0..k-1 (so the k-th
retry delay is `min(1s * 2^(k-1), 30s)`: 1s, 2s, 4s, 8s, 16s, 30s,
30s, ...), both from a fresh transport and after any trace `pre`
followed by a successful connect (the success resets the delay to 1s). -/
theorem reconnect_backoff (pre : List Bool) (k : Nat) :
    connectLoopDelays reconnectInitial (List.replicate k false) =
      (List.range k).map (fun i => min (reconnectInitial * 2 ^ i) reconnectMax) ∧
    connectLoopDelays reconnectInitial (pre ++ true :: List.replicate k false) =
      connectLoopDelays reconnectInitial (pre ++ [true]) ++
        (List.range k).map (fun i => min (reconnectInitial * 2 ^ i) reconnectMax) := by
  have hfresh : connectLoopDelays reconnectInitial (List.replicate k false) =
      (List.range k).map (fun i => min (reconnectInitial * 2 ^ i) reconnectMax) := by
    calc connectLoopDelays reconnectInitial (List.replicate k false)
        = connectLoopDelays (min (2 ^ 0) reconnectMax) (List.replicate k false) := by
          rw [show reconnectInitial = min (2 ^ 0) reconnectMax from by decide]
      _ = (List.range k).map (fun i => min (2 ^ (0 + i)) reconnectMax) :=
          connectLoopDelays_replicate k 0
      _ = (List.range k).map (fun i => min (reconnectInitial * 2 ^ i) reconnectMax) := by
          apply List.map_congr_left
          intro i _
          simp [reconnectInitial]
  refine ⟨hfresh, ?_⟩
  have hsplit : pre ++ true :: List.replicate k false =
      (pre ++ [true]) ++ List.replicate k false := by
    simp
  rw [hsplit, connectLoopDelays_append]
  have hreset : delayState reconnectInitial (pre ++ [true]) = reconnectInitial := by
    rw [delayState_append]
    rfl
  rw [hreset, hfresh]


/-- C8: when the client's bounded inbound queue is full, the newly
arrived envelope is dropped and the queue's contents are unchanged in
order; when there is room the envelope is appended (the reader loop
never blocks in either case). -/
theorem inbound_queue_drops_newest (q : List Envelope) (env : Envelope) :
    (messageChanCap ≤ q.length → readLoopEnqueue q env = q) ∧
    (q.length < messageChanCap → readLoopEnqueue q env = q ++ [env]) := by
  constructor
  · intro h
    simp [readLoopEnqueue, Nat.not_lt.mpr h]
  · intro h
    simp [readLoopEnqueue, h]

/-- Witness for C8: a queue holding 256 envelopes drops the next one;
a one-element queue appends it. -/
theorem inbound_queue_drops_newest_witness :
    readLoopEnqueue (List.replicate 256 (Envelope.mk "leave" (Json.str "x")))
        (Envelope.mk "leave" (Json.str "x")) =
      List.replicate 256 (Envelope.mk "leave" (Json.str "x")) ∧
    readLoopEnqueue [Envelope.mk "leave" (Json.str "x")]
        (Envelope.mk "leave" (Json.str "y")) =
      [Envelope.mk "leave" (Json.str "x")] ++ [Envelope.mk "leave" (Json.str "y")] :=
  ⟨(inbound_queue_drops_newest (List.replicate 256 (Envelope.mk "leave" (Json.str "x")))
      (Envelope.mk "leave" (Json.str "x"))).1
     (by rw [List.length_replicate]; decide),
   (inbound_queue_drops_newest [Envelope.mk "leave" (Json.str "x")]
      (Envelope.mk "leave" (Json.str "y"))).2 (by simp [messageChanCap])⟩


theorem assocSet_keys (m : List (String × PlayerInfo)) (k : String) (v : PlayerInfo)
    (j : String) : j ∈ (assocSet m k v).map Prod.fst ↔ j = k ∨ j ∈ m.map Prod.fst := by
  simp only [assocSet, List.map_cons, List.mem_cons, List.mem_map, List.mem_filter]
  constructor
  · rintro (h | ⟨e, ⟨he, hne⟩, rfl⟩)
    · exact Or.inl h
    · exact Or.inr ⟨e, he, rfl⟩
  · rintro (h | ⟨e, he, rfl⟩)
    · exact Or.inl h
    · by_cases hek : e.1 = k
      · exact Or.inl hek
      · exact Or.inr ⟨e, ⟨he, by simpa using hek⟩, rfl⟩

theorem buildPlayersMap_keys_aux (ps : List PlayerInfo)
    (m : List (String × PlayerInfo)) (j : String) :
    j ∈ (ps.foldl (fun m p => assocSet m p.id p) m).map Prod.fst ↔
      j ∈ ps.map PlayerInfo.id ∨ j ∈ m.map Prod.fst := by
  induction ps generalizing m with
  | nil => simp
  | cons p rest ih =>
    simp only [List.foldl_cons, List.map_cons, List.mem_cons]
    rw [ih, assocSet_keys]
    tauto

theorem buildPlayersMap_keys (ps : List PlayerInfo) (j : String) :
    j ∈ (buildPlayersMap ps).map Prod.fst ↔ j ∈ ps.map PlayerInfo.id := by
  rw [buildPlayersMap, buildPlayersMap_keys_aux]
  simp

theorem playersMap_lookup_eq_none (m : List (String × PlayerInfo)) (j : String)
    (h : j ∉ m.map Prod.fst) : m.lookup j = none := by
  induction m with
  | nil => rfl
  | cons e rest ih =>
    obtain ⟨k, v⟩ := e
    simp only [List.map_cons, List.mem_cons] at h
    push_neg at h
    rw [List.lookup_cons]
    simp only [beq_false_of_ne h.1]
    exact ih h.2

/-- C9: when the client processes a `State` envelope, its local player
map is wholly replaced by the map built from the envelope's player
list — the result is independent of the previous map, its key set is
exactly the ids in the list, and any id absent from the list (even one
previously known, for which no `Leave` was received) looks up to
nothing afterwards. -/
theorem state_msg_replaces_players (old : List (String × PlayerInfo)) (st : StateData)
    (hwf : ∀ p ∈ st.players, p.color.Wf) :
    processStateMsg old st.toJson = buildPlayersMap st.players ∧
    (∀ id, id ∈ (processStateMsg old st.toJson).map Prod.fst ↔
      id ∈ st.players.map PlayerInfo.id) ∧
    (∀ id, id ∉ st.players.map PlayerInfo.id →
      (processStateMsg old st.toJson).lookup id = none) := by
  have hdec : processStateMsg old st.toJson = buildPlayersMap st.players := by
    simp [processStateMsg, decodeStateData_roundtrip st hwf]
  refine ⟨hdec, ?_, ?_⟩
  · intro id
    rw [hdec]
    exact buildPlayersMap_keys st.players id
  · intro id hid
    rw [hdec]
    exact playersMap_lookup_eq_none _ _ (fun hc => hid ((buildPlayersMap_keys st.players id).mp hc))

/-- Witness for C9: a state snapshot listing only player-2 wipes a map
that previously knew player-1. -/
theorem state_msg_replaces_players_witness :
    processStateMsg [("player-1", PlayerInfo.mk "player-1" 1 2 ⟨9, 9, 9⟩)]
        (StateData.mk [PlayerInfo.mk "player-2" 3 4 ⟨5, 6, 7⟩]).toJson =
      buildPlayersMap [PlayerInfo.mk "player-2" 3 4 ⟨5, 6, 7⟩] ∧
    ("player-2" ∈ (processStateMsg [("player-1", PlayerInfo.mk "player-1" 1 2 ⟨9, 9, 9⟩)]
        (StateData.mk [PlayerInfo.mk "player-2" 3 4 ⟨5, 6, 7⟩]).toJson).map Prod.fst ↔
      "player-2" ∈ [PlayerInfo.mk "player-2" 3 4 ⟨5, 6, 7⟩].map PlayerInfo.id) ∧
    (processStateMsg [("player-1", PlayerInfo.mk "player-1" 1 2 ⟨9, 9, 9⟩)]
        (StateData.mk [PlayerInfo.mk "player-2" 3 4 ⟨5, 6, 7⟩]).toJson).lookup "player-1" =
      none :=
  ⟨(state_msg_replaces_players [("player-1", PlayerInfo.mk "player-1" 1 2 ⟨9, 9, 9⟩)]
      (StateData.mk [PlayerInfo.mk "player-2" 3 4 ⟨5, 6, 7⟩]) (by decide)).1,
   (state_msg_replaces_players [("player-1", PlayerInfo.mk "player-1" 1 2 ⟨9, 9, 9⟩)]
      (StateData.mk [PlayerInfo.mk "player-2" 3 4 ⟨5, 6, 7⟩]) (by decide)).2.1 "player-2",
   (state_msg_replaces_players [("player-1", PlayerInfo.mk "player-1" 1 2 ⟨9, 9, 9⟩)]
      (StateData.mk [PlayerInfo.mk "player-2" 3 4 ⟨5, 6, 7⟩]) (by decide)).2.2 "player-1"
     (by decide)⟩


theorem storeIds_remove (gs : GameState) (id s : String) :
    s ∈ storeIds (RemovePlayer gs id) ↔ s ∈ storeIds gs ∧ s ≠ id := by
  simp only [storeIds, RemovePlayer, List.mem_map, List.mem_filter, decide_eq_true_eq]
  constructor
  · rintro ⟨e, ⟨he, hne⟩, rfl⟩
    exact ⟨⟨e, he, rfl⟩, hne⟩
  · rintro ⟨⟨e, he, rfl⟩, hne⟩
    exact ⟨e, ⟨he, hne⟩, rfl⟩

theorem storeIds_remove_nodup (gs : GameState) (id : String)
    (hs : (storeIds gs).Nodup) : (storeIds (RemovePlayer gs id)).Nodup :=
  List.Nodup.sublist (List.Sublist.map Prod.fst (List.filter_sublist gs)) hs

theorem storeIds_add (gs : GameState) (id : String) (x y : ℚ) (c : Color) (s : String) :
    s ∈ storeIds (AddPlayer gs id x y c) ↔ s = id ∨ s ∈ storeIds gs := by
  simp only [AddPlayer, storeIds, List.map_cons, List.mem_cons]
  rw [show (List.map Prod.fst (RemovePlayer gs id) : List String) =
    storeIds (RemovePlayer gs id) from rfl]
  constructor
  · rintro (h | h)
    · exact Or.inl h
    · exact Or.inr ((storeIds_remove gs id s).mp h).1
  · rintro (h | h)
    · exact Or.inl h
    · by_cases hid : s = id
      · exact Or.inl hid
      · exact Or.inr ((storeIds_remove gs id s).mpr ⟨h, hid⟩)

theorem storeIds_add_nodup (gs : GameState) (id : String) (x y : ℚ) (c : Color)
    (hs : (storeIds gs).Nodup) : (storeIds (AddPlayer gs id x y c)).Nodup := by
  simp only [AddPlayer, storeIds, List.map_cons, List.nodup_cons]
  refine ⟨fun hc => ?_, storeIds_remove_nodup gs id hs⟩
  exact ((storeIds_remove gs id id).mp hc).2 rfl

theorem storeIds_foldl_remove (l : List Session) (gs : GameState) (s : String) :
    s ∈ storeIds (l.foldl (fun g c => RemovePlayer g c.id) gs) ↔
      s ∈ storeIds gs ∧ s ∉ l.map Session.id := by
  induction l generalizing gs with
  | nil => simp
  | cons c rest ih =>
    simp only [List.foldl_cons, List.map_cons, List.mem_cons]
    rw [ih, storeIds_remove]
    push_neg
    tauto

theorem storeIds_foldl_remove_nodup (l : List Session) (gs : GameState)
    (hs : (storeIds gs).Nodup) :
    (storeIds (l.foldl (fun g c => RemovePlayer g c.id) gs)).Nodup := by
  induction l generalizing gs with
  | nil => exact hs
  | cons c rest ih => exact ih _ (storeIds_remove_nodup gs c.id hs)

theorem broadcastBytes_clients (msg : WireMsg) (cs : List Session) (gs : GameState) :
    (broadcastBytes msg cs gs).1 =
      (cs.filter hasSpace).map (fun c => { c with queue := c.queue ++ [msg] }) := by
  induction cs generalizing gs with
  | nil => rfl
  | cons c rest ih =>
    by_cases hc : c.queue.length < c.cap
    · simp [broadcastBytes, hasSpace, hc, ih gs]
    · simp [broadcastBytes, hasSpace, hc, ih (RemovePlayer gs c.id)]

theorem broadcastBytes_store (msg : WireMsg) (cs : List Session) (gs : GameState) :
    (broadcastBytes msg cs gs).2 =
      (cs.filter (fun c => !hasSpace c)).foldl (fun g c => RemovePlayer g c.id) gs := by
  induction cs generalizing gs with
  | nil => rfl
  | cons c rest ih =>
    by_cases hc : c.queue.length < c.cap
    · simp [broadcastBytes, hasSpace, hc, ih gs]
    · simp [broadcastBytes, hasSpace, hc, ih (RemovePlayer gs c.id)]

theorem broadcastBytes_all_space (msg : WireMsg) (cs : List Session) (gs : GameState)
    (h : ∀ c ∈ cs, c.queue.length < c.cap) :
    broadcastBytes msg cs gs =
      (cs.map (fun c => { c with queue := c.queue ++ [msg] }), gs) := by
  induction cs with
  | nil => rfl
  | cons c rest ih =>
    have hc := h c (List.mem_cons_self c rest)
    have hr := fun d hd => h d (List.mem_cons_of_mem c hd)
    simp [broadcastBytes, hc, ih hr]

theorem sendTo_refs (cs : List Session) (ref : Nat) (msg : WireMsg) :
    (sendTo cs ref msg).map Session.ref = cs.map Session.ref := by
  simp only [sendTo, List.map_map]
  apply List.map_congr_left
  intro s _
  by_cases h : s.ref = ref <;> simp [h]

theorem sendTo_ids (cs : List Session) (ref : Nat) (msg : WireMsg) :
    (sendTo cs ref msg).map Session.id = cs.map Session.id := by
  simp only [sendTo, List.map_map]
  apply List.map_congr_left
  intro s _
  by_cases h : s.ref = ref <;> simp [h]

theorem sendTo_append_fresh (cs : List Session) (c : Session) (r : Nat) (msg : WireMsg)
    (hr : c.ref = r) (hfresh : r ∉ cs.map Session.ref) :
    sendTo (cs ++ [c]) r msg = cs ++ [{ c with queue := c.queue ++ [msg] }] := by
  simp only [sendTo, List.map_append, List.map_cons, List.map_nil]
  congr 1
  · have hid : ∀ s ∈ cs,
        (if s.ref = r then { s with queue := s.queue ++ [msg] } else s) = s := by
      intro s hs
      apply if_neg
      intro hceq
      apply hfresh
      rw [← hceq]
      exact List.mem_map_of_mem Session.ref hs
    rw [List.map_congr_left hid]
    simp
  · simp [hr]

theorem filter_map_partition_mem (cs : List Session) (p : Session → Bool) (s : String)
    (hids : (cs.map Session.id).Nodup) :
    s ∈ (cs.filter p).map Session.id ↔
      s ∈ cs.map Session.id ∧ s ∉ (cs.filter (fun c => !p c)).map Session.id := by
  induction cs with
  | nil => simp
  | cons c rest ih =>
    simp only [List.map_cons, List.nodup_cons] at hids
    obtain ⟨hc, hrest⟩ := hids
    have hsub : ∀ q : Session → Bool,
        c.id ∉ (rest.filter q).map Session.id := by
      intro q hcmem
      obtain ⟨d, hd, hde⟩ := List.mem_map.mp hcmem
      exact hc (hde ▸ List.mem_map_of_mem Session.id (List.mem_of_mem_filter hd))
    cases hbp : p c with
    | false =>
      have hfc : (c :: rest).filter p = rest.filter p := by
        simp [List.filter_cons, hbp]
      have hfn : (c :: rest).filter (fun d => !p d) = c :: rest.filter (fun d => !p d) := by
        simp [List.filter_cons, hbp]
      rw [hfc, hfn]
      simp only [List.map_cons, List.mem_cons]
      constructor
      · intro hmem
        have hs_ne : s ≠ c.id := by
          intro he
          exact hsub p (by rw [← he]; exact hmem)
        have hr := (ih hrest).mp hmem
        refine ⟨Or.inr hr.1, ?_⟩
        rintro (he | hmem2)
        · exact hs_ne he
        · exact hr.2 hmem2
      · rintro ⟨hor, hno⟩
        push_neg at hno
        obtain ⟨hne, hno2⟩ := hno
        rcases hor with he | hmem
        · exact absurd he hne
        · exact (ih hrest).mpr ⟨hmem, hno2⟩
    | true =>
      have hfc : (c :: rest).filter p = c :: rest.filter p := by
        simp [List.filter_cons, hbp]
      have hfn : (c :: rest).filter (fun d => !p d) = rest.filter (fun d => !p d) := by
        simp [List.filter_cons, hbp]
      rw [hfc, hfn]
      simp only [List.map_cons, List.mem_cons]
      constructor
      · rintro (he | hmem)
        · subst he
          exact ⟨Or.inl rfl, hsub _⟩
        · have hr := (ih hrest).mp hmem
          exact ⟨Or.inr hr.1, hr.2⟩
      · rintro ⟨hor, hno⟩
        rcases hor with he | hmem
        · exact Or.inl he
        · exact Or.inr ((ih hrest).mpr ⟨hmem, hno⟩)


theorem broadcastBytes_refs (msg : WireMsg) (cs : List Session) (gs : GameState) :
    (broadcastBytes msg cs gs).1.map Session.ref = (cs.filter hasSpace).map Session.ref := by
  rw [broadcastBytes_clients, List.map_map]
  apply List.map_congr_left
  intro d _
  rfl

theorem broadcastBytes_ids (msg : WireMsg) (cs : List Session) (gs : GameState) :
    (broadcastBytes msg cs gs).1.map Session.id = (cs.filter hasSpace).map Session.id := by
  rw [broadcastBytes_clients, List.map_map]
  apply List.map_congr_left
  intro d _
  rfl

theorem broadcastBytes_inv (msg : WireMsg) (cs : List Session) (gs : GameState)
    (hrefs : (cs.map Session.ref).Nodup) (hids : (cs.map Session.id).Nodup)
    (hstore : (storeIds gs).Nodup)
    (hmem : ∀ s, s ∈ cs.map Session.id ↔ s ∈ storeIds gs) :
    ((broadcastBytes msg cs gs).1.map Session.ref).Nodup ∧
    ((broadcastBytes msg cs gs).1.map Session.id).Nodup ∧
    (storeIds (broadcastBytes msg cs gs).2).Nodup ∧
    (∀ s, s ∈ (broadcastBytes msg cs gs).1.map Session.id ↔
      s ∈ storeIds (broadcastBytes msg cs gs).2) := by
  have hsubref : List.Sublist ((cs.filter hasSpace).map Session.ref) (cs.map Session.ref) :=
    List.Sublist.map Session.ref (List.filter_sublist cs)
  have hsubid : List.Sublist ((cs.filter hasSpace).map Session.id) (cs.map Session.id) :=
    List.Sublist.map Session.id (List.filter_sublist cs)
  refine ⟨?_, ?_, ?_, ?_⟩
  · rw [broadcastBytes_refs]
    exact List.Nodup.sublist hsubref hrefs
  · rw [broadcastBytes_ids]
    exact List.Nodup.sublist hsubid hids
  · rw [broadcastBytes_store]
    exact storeIds_foldl_remove_nodup _ _ hstore
  · intro s
    rw [broadcastBytes_ids, broadcastBytes_store, storeIds_foldl_remove,
      filter_map_partition_mem cs hasSpace s hids, hmem s]


theorem WfEvents_take (cd : Codec) :
    ∀ (es : List HEvent) (h : Hub) (n : Nat), WfEvents cd h es → WfEvents cd h (es.take n) := by
  intro es
  induction es with
  | nil =>
    intro h n _
    cases n <;> exact trivial
  | cons e rest ih =>
    intro h n hwf
    cases n with
    | zero => exact trivial
    | succ m => exact ⟨hwf.1, ih (hubStep cd h e) m hwf.2⟩

theorem nodup_append_singleton {α : Type} (l : List α) (a : α) (hl : l.Nodup)
    (ha : a ∉ l) : (l ++ [a]).Nodup := by
  rw [List.nodup_append]
  refine ⟨hl, List.nodup_singleton a, ?_⟩
  intro x hx hxa
  simp only [List.mem_singleton] at hxa
  exact ha (hxa ▸ hx)

theorem registerPost_facts (h : Hub) (c : Session) (cs2 : List Session) (x y : ℚ)
    (col : Color) (hinv : HubInv h)
    (href : c.ref ∉ h.clients.map Session.ref)
    (hid : c.id ∉ h.clients.map Session.id)
    (hi2 : cs2.map Session.id = h.clients.map Session.id ++ [c.id])
    (hr2 : cs2.map Session.ref = h.clients.map Session.ref ++ [c.ref]) :
    (cs2.map Session.ref).Nodup ∧ (cs2.map Session.id).Nodup ∧
    (storeIds (AddPlayer h.state c.id x y col)).Nodup ∧
    (∀ s, s ∈ cs2.map Session.id ↔ s ∈ storeIds (AddPlayer h.state c.id x y col)) := by
  refine ⟨?_, ?_, ?_, ?_⟩
  · rw [hr2]
    exact nodup_append_singleton _ _ hinv.refs_nodup href
  · rw [hi2]
    exact nodup_append_singleton _ _ hinv.ids_nodup hid
  · exact storeIds_add_nodup _ _ _ _ _ hinv.store_nodup
  · intro s
    rw [hi2, storeIds_add]
    simp only [List.mem_append, List.mem_singleton]
    rw [hinv.mem_iff s]
    tauto

theorem register_inv (cd : Codec) (h : Hub) (c : Session) (x y : ℚ) (col : Color)
    (hinv : HubInv h)
    (href : c.ref ∉ h.clients.map Session.ref)
    (hid : c.id ∉ h.clients.map Session.id) :
    HubInv (hubRegister cd h c x y col) := by
  cases hw : cd.marshalWelcome ⟨c.id, col⟩ with
  | some m =>
    have hi2 : (sendTo (sendTo (h.clients ++ [c]) c.ref (some m)) c.ref
        (buildStateMessage cd (AddPlayer h.state c.id x y col))).map Session.id =
        h.clients.map Session.id ++ [c.id] := by
      rw [sendTo_ids, sendTo_ids]
      simp
    have hr2 : (sendTo (sendTo (h.clients ++ [c]) c.ref (some m)) c.ref
        (buildStateMessage cd (AddPlayer h.state c.id x y col))).map Session.ref =
        h.clients.map Session.ref ++ [c.ref] := by
      rw [sendTo_refs, sendTo_refs]
      simp
    obtain ⟨f1, f2, f3, f4⟩ := registerPost_facts h c _ x y col hinv href hid hi2 hr2
    cases hj : cd.marshalJoin ⟨c.id, x, y, col⟩ with
    | some m2 =>
      simp only [hubRegister, hw, hj]
      obtain ⟨g1, g2, g3, g4⟩ := broadcastBytes_inv (some m2) _ _ f1 f2 f3 f4
      exact ⟨g1, g2, g3, g4⟩
    | none =>
      simp only [hubRegister, hw, hj]
      exact ⟨f1, f2, f3, f4⟩
  | none =>
    have hi2 : (sendTo (h.clients ++ [c]) c.ref
        (buildStateMessage cd (AddPlayer h.state c.id x y col))).map Session.id =
        h.clients.map Session.id ++ [c.id] := by
      rw [sendTo_ids]
      simp
    have hr2 : (sendTo (h.clients ++ [c]) c.ref
        (buildStateMessage cd (AddPlayer h.state c.id x y col))).map Session.ref =
        h.clients.map Session.ref ++ [c.ref] := by
      rw [sendTo_refs]
      simp
    obtain ⟨f1, f2, f3, f4⟩ := registerPost_facts h c _ x y col hinv href hid hi2 hr2
    cases hj : cd.marshalJoin ⟨c.id, x, y, col⟩ with
    | some m2 =>
      simp only [hubRegister, hw, hj]
      obtain ⟨g1, g2, g3, g4⟩ := broadcastBytes_inv (some m2) _ _ f1 f2 f3 f4
      exact ⟨g1, g2, g3, g4⟩
    | none =>
      simp only [hubRegister, hw, hj]
      exact ⟨f1, f2, f3, f4⟩

theorem unregister_inv (cd : Codec) (h : Hub) (ref : Nat) (hinv : HubInv h) :
    HubInv (hubUnregister cd h ref) := by
  cases hf : h.clients.find? (fun s => s.ref = ref) with
  | none =>
    simp only [hubUnregister, hf]
    exact hinv
  | some c =>
    have hcmem : c ∈ h.clients := List.mem_of_find?_eq_some hf
    have hcref : c.ref = ref := by
      have := List.find?_some hf
      simpa using this
    have hmem2 : ∀ s, s ∈ (h.clients.filter (fun s => s.ref ≠ ref)).map Session.id ↔
        s ∈ h.clients.map Session.id ∧ s ≠ c.id := by
      intro s
      constructor
      · intro hs
        obtain ⟨d, hd, rfl⟩ := List.mem_map.mp hs
        have hdmem := List.mem_of_mem_filter hd
        have hdref : d.ref ≠ ref := by simpa using List.of_mem_filter hd
        refine ⟨List.mem_map_of_mem _ hdmem, fun hde => ?_⟩
        have hdc : d = c := List.inj_on_of_nodup_map hinv.ids_nodup hdmem hcmem hde
        exact hdref (hdc ▸ hcref)
      · rintro ⟨hs, hne⟩
        obtain ⟨d, hd, rfl⟩ := List.mem_map.mp hs
        have hdref : d.ref ≠ ref := by
          intro hdr
          have hdc : d = c :=
            List.inj_on_of_nodup_map hinv.refs_nodup hd hcmem (hdr.trans hcref.symm)
          exact hne (congrArg Session.id hdc)
        exact List.mem_map_of_mem _ (List.mem_filter_of_mem hd (by simpa using hdref))
    have hmem3 : ∀ s, s ∈ (h.clients.filter (fun s => s.ref ≠ ref)).map Session.id ↔
        s ∈ storeIds (RemovePlayer h.state c.id) := by
      intro s
      rw [hmem2 s, storeIds_remove, hinv.mem_iff s]
    have hnref : ((h.clients.filter (fun s => s.ref ≠ ref)).map Session.ref).Nodup :=
      List.Nodup.sublist (List.Sublist.map Session.ref (List.filter_sublist h.clients))
        hinv.refs_nodup
    have hnid : ((h.clients.filter (fun s => s.ref ≠ ref)).map Session.id).Nodup :=
      List.Nodup.sublist (List.Sublist.map Session.id (List.filter_sublist h.clients))
        hinv.ids_nodup
    have hnst := storeIds_remove_nodup h.state c.id hinv.store_nodup
    cases hl : cd.marshalLeave ⟨c.id⟩ with
    | some m =>
      simp only [hubUnregister, hf, hl]
      obtain ⟨g1, g2, g3, g4⟩ := broadcastBytes_inv (some m) _ _ hnref hnid hnst hmem3
      exact ⟨g1, g2, g3, g4⟩
    | none =>
      simp only [hubUnregister, hf, hl]
      exact ⟨hnref, hnid, hnst, hmem3⟩

theorem stop_inv (h : Hub) (hinv : HubInv h) : HubInv (hubStop h) := by
  refine ⟨by simp [hubStop], by simp [hubStop], ?_, ?_⟩
  · exact storeIds_foldl_remove_nodup _ _ hinv.store_nodup
  · intro s
    simp only [hubStop, List.map_nil, List.not_mem_nil, false_iff]
    rw [storeIds_foldl_remove]
    rintro ⟨hs, hno⟩
    exact hno ((hinv.mem_iff s).mpr hs)

theorem hubStep_inv (cd : Codec) (h : Hub) (e : HEvent) (hinv : HubInv h)
    (hok : EventOk h e) : HubInv (hubStep cd h e) := by
  by_cases hs : h.stopped
  · simpa [hubStep, hs] using hinv
  · cases e with
    | register c x y col =>
      simp only [hubStep, if_neg hs]
      exact register_inv cd h c x y col hinv hok.1 hok.2
    | unregister ref =>
      simp only [hubStep, if_neg hs]
      exact unregister_inv cd h ref hinv
    | broadcast m =>
      simp only [hubStep, if_neg hs]
      obtain ⟨g1, g2, g3, g4⟩ := broadcastBytes_inv m h.clients h.state hinv.refs_nodup
        hinv.ids_nodup hinv.store_nodup hinv.mem_iff
      exact ⟨g1, g2, g3, g4⟩
    | stop =>
      simp only [hubStep, if_neg hs]
      exact stop_inv h hinv

theorem hubRun_inv (cd : Codec) (es : List HEvent) (h : Hub) (hinv : HubInv h)
    (hwf : WfEvents cd h es) : HubInv (hubRun cd h es) := by
  induction es generalizing h with
  | nil => exact hinv
  | cons e rest ih => exact ih (hubStep cd h e) (hubStep_inv cd h e hinv hwf.1) hwf.2

theorem NewHub_inv : HubInv NewHub :=
  ⟨List.nodup_nil, List.nodup_nil, List.nodup_nil, by intro s; simp [NewHub, storeIds]⟩

/-- C1: along any well-formed event sequence (each registered client is
fresh, as `handleWebSocket` guarantees via `nextPlayerID`), after each
processed event (every prefix of the trace) the set of entity ids in
the state store equals the set of ids of sessions in the hub's live
client set: register adds exactly the new entity, unregister and
queue-full eviction remove exactly the owning entity, and stop empties
both. -/
theorem hub_membership_invariant (cd : Codec) (es : List HEvent)
    (hwf : WfEvents cd NewHub es) (n : Nat) (s : String) :
    s ∈ clientIds (hubRun cd NewHub (es.take n)).clients ↔
      s ∈ storeIds (hubRun cd NewHub (es.take n)).state :=
  (hubRun_inv cd (es.take n) NewHub NewHub_inv (WfEvents_take cd es NewHub n hwf)).mem_iff s

/-- Witness for C1: a concrete two-event trace (register then evicting
broadcast is not needed — register then unregister) evaluated at its
first prefix. -/
theorem hub_membership_invariant_witness :
    WfEvents jsonCodec NewHub
      [HEvent.register ⟨0, "player-1", 256, []⟩ 1 2 ⟨231, 76, 60⟩, HEvent.unregister 0] ∧
    ("player-1" ∈ clientIds (hubRun jsonCodec NewHub
        ([HEvent.register ⟨0, "player-1", 256, []⟩ 1 2 ⟨231, 76, 60⟩,
          HEvent.unregister 0].take 1)).clients ↔
      "player-1" ∈ storeIds (hubRun jsonCodec NewHub
        ([HEvent.register ⟨0, "player-1", 256, []⟩ 1 2 ⟨231, 76, 60⟩,
          HEvent.unregister 0].take 1)).state) :=
  ⟨by decide, hub_membership_invariant jsonCodec
    [HEvent.register ⟨0, "player-1", 256, []⟩ 1 2 ⟨231, 76, 60⟩, HEvent.unregister 0]
    (by decide) 1 "player-1"⟩

/-- C6: processing Unregister for a session not in the live set leaves
the hub completely unchanged (same live set, same store, every queue
untouched — hence no Leave broadcast and no closed queue — and no
error), and unregistering the same session twice equals unregistering
it once. -/
theorem unregister_absent_noop (cd : Codec) (h : Hub) (ref : Nat) :
    (ref ∉ h.clients.map Session.ref → hubStep cd h (.unregister ref) = h) ∧
    hubStep cd (hubStep cd h (.unregister ref)) (.unregister ref) =
      hubStep cd h (.unregister ref) := by
  have habs : ∀ h2 : Hub, ref ∉ h2.clients.map Session.ref →
      hubStep cd h2 (.unregister ref) = h2 := by
    intro h2 hno
    by_cases hs : h2.stopped
    · simp [hubStep, hs]
    · have hf : h2.clients.find? (fun s => s.ref = ref) = none := by
        rw [List.find?_eq_none]
        intro s hsm
        simp only [decide_eq_true_eq]
        intro hc
        exact hno (hc ▸ List.mem_map_of_mem Session.ref hsm)
      simp [hubStep, if_neg hs, hubUnregister, hf]
  refine ⟨habs h, ?_⟩
  by_cases hs : h.stopped
  · have e1 : hubStep cd h (.unregister ref) = h := by simp [hubStep, hs]
    rw [e1, e1]
  · cases hf : h.clients.find? (fun s => s.ref = ref) with
    | none =>
      have e1 : hubStep cd h (.unregister ref) = h := by
        simp [hubStep, if_neg hs, hubUnregister, hf]
      rw [e1, e1]
    | some c =>
      apply habs
      simp only [hubStep, if_neg hs, hubUnregister, hf]
      cases hl : cd.marshalLeave ⟨c.id⟩ with
      | some m =>
        rw [broadcastBytes_refs]
        intro hmem2
        obtain ⟨d, hd, hde⟩ := List.mem_map.mp hmem2
        have hd2 := List.mem_of_mem_filter hd
        have hdr : d.ref ≠ ref := by simpa using List.of_mem_filter hd2
        exact hdr hde
      | none =>
        intro hmem2
        obtain ⟨d, hd, hde⟩ := List.mem_map.mp hmem2
        have hdr : d.ref ≠ ref := by simpa using List.of_mem_filter hd
        exact hdr hde

/-- Witness for C6: a hub with one live session (ref 0); unregistering
the absent ref 5 once and twice. -/
theorem unregister_absent_noop_witness :
    hubStep jsonCodec
        ⟨[⟨0, "player-1", 256, []⟩], [("player-1", ⟨1, 2, ⟨3, 4, 5⟩⟩)], false⟩
        (.unregister 5) =
      ⟨[⟨0, "player-1", 256, []⟩], [("player-1", ⟨1, 2, ⟨3, 4, 5⟩⟩)], false⟩ ∧
    hubStep jsonCodec (hubStep jsonCodec
        ⟨[⟨0, "player-1", 256, []⟩], [("player-1", ⟨1, 2, ⟨3, 4, 5⟩⟩)], false⟩
        (.unregister 5)) (.unregister 5) =
      hubStep jsonCodec
        ⟨[⟨0, "player-1", 256, []⟩], [("player-1", ⟨1, 2, ⟨3, 4, 5⟩⟩)], false⟩
        (.unregister 5) :=
  ⟨(unregister_absent_noop jsonCodec
      ⟨[⟨0, "player-1", 256, []⟩], [("player-1", ⟨1, 2, ⟨3, 4, 5⟩⟩)], false⟩ 5).1
      (by decide),
   (unregister_absent_noop jsonCodec
      ⟨[⟨0, "player-1", 256, []⟩], [("player-1", ⟨1, 2, ⟨3, 4, 5⟩⟩)], false⟩ 5).2⟩

theorem filter_ref_single (cs : List Session) (f : Session) (hmem : f ∈ cs)
    (hrefs : (cs.map Session.ref).Nodup) :
    cs.filter (fun c => c.ref = f.ref) = [f] := by
  induction cs with
  | nil => cases hmem
  | cons c rest ih =>
    simp only [List.map_cons, List.nodup_cons] at hrefs
    obtain ⟨hc, hrest⟩ := hrefs
    rcases List.mem_cons.mp hmem with rfl | hfr
    · rw [List.filter_cons_of_pos (by simp)]
      have hnil : rest.filter (fun d => d.ref = f.ref) = [] := by
        rw [List.filter_eq_nil_iff]
        intro d hd
        simp only [decide_eq_true_eq]
        intro hdr
        exact hc (hdr ▸ List.mem_map_of_mem Session.ref hd)
      rw [hnil]
    · have hcref : ¬(c.ref = f.ref) := by
        intro he
        exact hc (he ▸ List.mem_map_of_mem Session.ref hfr)
      rw [List.filter_cons_of_neg (by simpa using hcref)]
      exact ih hfr hrest

/-- C3: in a hub where exactly one live session has a full outbound
queue, one broadcast event evicts exactly that session — it is removed
from the live set (its channel closed) and its entity removed from the
store — while every other session gets the message appended to its
queue; the step is a total function of the hub state, so the loop
never blocks. -/
theorem broadcast_backpressure_evicts (cd : Codec) (h : Hub) (f : Session) (m : WireMsg)
    (hstop : h.stopped = false)
    (hmem : f ∈ h.clients)
    (hrefs : (h.clients.map Session.ref).Nodup)
    (hfull : ¬ f.queue.length < f.cap)
    (hothers : ∀ c ∈ h.clients, c.ref ≠ f.ref → c.queue.length < c.cap) :
    (hubStep cd h (.broadcast m)).clients =
      (h.clients.filter (fun c => c.ref ≠ f.ref)).map
        (fun c => { c with queue := c.queue ++ [m] }) ∧
    (hubStep cd h (.broadcast m)).state = RemovePlayer h.state f.id ∧
    f.ref ∉ (hubStep cd h (.broadcast m)).clients.map Session.ref := by
  have hc1 : (hubStep cd h (.broadcast m)).clients =
      (broadcastBytes m h.clients h.state).1 := by
    simp [hubStep, hstop]
  have hc2 : (hubStep cd h (.broadcast m)).state =
      (broadcastBytes m h.clients h.state).2 := by
    simp [hubStep, hstop]
  have hfilter : h.clients.filter hasSpace = h.clients.filter (fun c => c.ref ≠ f.ref) := by
    apply List.filter_congr
    intro c hcm
    by_cases hcf : c.ref = f.ref
    · have hcef : c = f := List.inj_on_of_nodup_map hrefs hcm hmem hcf
      rw [hcef]
      simp [hasSpace, hfull]
    · simp [hasSpace, hothers c hcm hcf, hcf]
  have hevict : h.clients.filter (fun c => !hasSpace c) =
      h.clients.filter (fun c => c.ref = f.ref) := by
    apply List.filter_congr
    intro c hcm
    by_cases hcf : c.ref = f.ref
    · have hcef : c = f := List.inj_on_of_nodup_map hrefs hcm hmem hcf
      rw [hcef]
      simp [hasSpace, hfull]
    · simp [hasSpace, hothers c hcm hcf, hcf]
  have hsingle : h.clients.filter (fun c => c.ref = f.ref) = [f] :=
    filter_ref_single h.clients f hmem hrefs
  refine ⟨?_, ?_, ?_⟩
  · rw [hc1, broadcastBytes_clients, hfilter]
  · rw [hc2, broadcastBytes_store, hevict, hsingle]
    rfl
  · rw [hc1, broadcastBytes_refs, hfilter]
    intro hmm
    obtain ⟨d, hd, hde⟩ := List.mem_map.mp hmm
    have hdr : d.ref ≠ f.ref := by simpa using List.of_mem_filter hd
    exact hdr hde

/-- Witness for C3: two sessions, ref 0 full (capacity 2, two queued
messages), ref 1 with room; one broadcast evicts exactly ref 0. -/
theorem broadcast_backpressure_evicts_witness :
    (hubStep jsonCodec
        ⟨[⟨0, "player-1", 2, [none, none]⟩, ⟨1, "player-2", 256, []⟩],
         [("player-1", ⟨1, 1, ⟨1, 1, 1⟩⟩), ("player-2", ⟨2, 2, ⟨2, 2, 2⟩⟩)], false⟩
        (.broadcast (some (Json.str "m")))).clients =
      (([⟨0, "player-1", 2, [none, none]⟩, ⟨1, "player-2", 256, []⟩] : List Session).filter
          (fun c => c.ref ≠ (⟨0, "player-1", 2, [none, none]⟩ : Session).ref)).map
        (fun c => { c with queue := c.queue ++ [some (Json.str "m")] }) ∧
    (hubStep jsonCodec
        ⟨[⟨0, "player-1", 2, [none, none]⟩, ⟨1, "player-2", 256, []⟩],
         [("player-1", ⟨1, 1, ⟨1, 1, 1⟩⟩), ("player-2", ⟨2, 2, ⟨2, 2, 2⟩⟩)], false⟩
        (.broadcast (some (Json.str "m")))).state =
      RemovePlayer [("player-1", ⟨1, 1, ⟨1, 1, 1⟩⟩), ("player-2", ⟨2, 2, ⟨2, 2, 2⟩⟩)]
        "player-1" ∧
    (⟨0, "player-1", 2, [none, none]⟩ : Session).ref ∉
      (hubStep jsonCodec
        ⟨[⟨0, "player-1", 2, [none, none]⟩, ⟨1, "player-2", 256, []⟩],
         [("player-1", ⟨1, 1, ⟨1, 1, 1⟩⟩), ("player-2", ⟨2, 2, ⟨2, 2, 2⟩⟩)], false⟩
        (.broadcast (some (Json.str "m")))).clients.map Session.ref :=
  broadcast_backpressure_evicts jsonCodec
    ⟨[⟨0, "player-1", 2, [none, none]⟩, ⟨1, "player-2", 256, []⟩],
     [("player-1", ⟨1, 1, ⟨1, 1, 1⟩⟩), ("player-2", ⟨2, 2, ⟨2, 2, 2⟩⟩)], false⟩
    ⟨0, "player-1", 2, [none, none]⟩ (some (Json.str "m")) rfl
    (List.mem_cons_self _ _) (by decide) (by decide)
    (by
      intro c hcm hne
      rcases List.mem_cons.mp hcm with rfl | hc2
      · exact absurd rfl hne
      · rcases List.mem_cons.mp hc2 with rfl | hc3
        · decide
        · cases hc3)


/-- C4: when the hub registers a fresh client (empty queue of capacity
256, as `NewClient` builds it) and every existing session has queue
room, the new session's queue afterwards is exactly
[Welcome, State-snapshot, Join] in FIFO order — so it can never
observe State before Welcome or Join before State — the snapshot
having been built after the new entity was added, and every
pre-existing session receives exactly the Join broadcast appended to
its queue. -/
theorem register_message_order (h : Hub) (c : Session) (x y : ℚ) (col : Color)
    (hstop : h.stopped = false)
    (hfresh : c.ref ∉ h.clients.map Session.ref)
    (hq : c.queue = [])
    (hcap : c.cap = sendBufferSize)
    (hspace : ∀ d ∈ h.clients, d.queue.length < d.cap) :
    (hubStep jsonCodec h (.register c x y col)).clients =
      h.clients.map (fun d => { d with queue := d.queue ++
          [some (Marshal MsgJoin (JoinData.mk c.id x y col).toJson)] }) ++
        [{ c with queue :=
            [some (Marshal MsgWelcome (WelcomeData.mk c.id col).toJson),
             some (Marshal MsgState (StateData.mk (snapshotPlayers
                (AddPlayer h.state c.id x y col))).toJson),
             some (Marshal MsgJoin (JoinData.mk c.id x y col).toJson)] }] ∧
    (hubStep jsonCodec h (.register c x y col)).state = AddPlayer h.state c.id x y col ∧
    PlayerInfo.mk c.id x y col ∈ snapshotPlayers (AddPlayer h.state c.id x y col) := by
  have e0 : hubStep jsonCodec h (.register c x y col) = hubRegister jsonCodec h c x y col := by
    simp [hubStep, hstop]
  have hw : jsonCodec.marshalWelcome (WelcomeData.mk c.id col) =
      some (Marshal MsgWelcome (WelcomeData.mk c.id col).toJson) := rfl
  have hj : jsonCodec.marshalJoin (JoinData.mk c.id x y col) =
      some (Marshal MsgJoin (JoinData.mk c.id x y col).toJson) := rfl
  have hs2 : buildStateMessage jsonCodec (AddPlayer h.state c.id x y col) =
      some (Marshal MsgState (StateData.mk (snapshotPlayers
        (AddPlayer h.state c.id x y col))).toJson) := rfl
  have e1 : sendTo (h.clients ++ [c]) c.ref
        (some (Marshal MsgWelcome (WelcomeData.mk c.id col).toJson)) =
      h.clients ++ [{ c with queue := c.queue ++
        [some (Marshal MsgWelcome (WelcomeData.mk c.id col).toJson)] }] :=
    sendTo_append_fresh h.clients c c.ref _ rfl hfresh
  have e2 : sendTo (h.clients ++ [{ c with queue := c.queue ++
        [some (Marshal MsgWelcome (WelcomeData.mk c.id col).toJson)] }]) c.ref
        (buildStateMessage jsonCodec (AddPlayer h.state c.id x y col)) =
      h.clients ++ [{ c with queue := (c.queue ++
        [some (Marshal MsgWelcome (WelcomeData.mk c.id col).toJson)]) ++
        [buildStateMessage jsonCodec (AddPlayer h.state c.id x y col)] }] :=
    sendTo_append_fresh h.clients _ c.ref _ rfl hfresh
  have hall : ∀ d ∈ h.clients ++ [{ c with queue := (c.queue ++
        [some (Marshal MsgWelcome (WelcomeData.mk c.id col).toJson)]) ++
        [buildStateMessage jsonCodec (AddPlayer h.state c.id x y col)] }],
      d.queue.length < d.cap := by
    intro d hd
    rcases List.mem_append.mp hd with hd1 | hd2
    · exact hspace d hd1
    · have hde := List.mem_singleton.mp hd2
      rw [hde]
      simp [hq, hcap, sendBufferSize]
  have e3 := broadcastBytes_all_space
      (some (Marshal MsgJoin (JoinData.mk c.id x y col).toJson))
      (h.clients ++ [{ c with queue := (c.queue ++
        [some (Marshal MsgWelcome (WelcomeData.mk c.id col).toJson)]) ++
        [buildStateMessage jsonCodec (AddPlayer h.state c.id x y col)] }])
      (AddPlayer h.state c.id x y col) hall
  refine ⟨?_, ?_, ?_⟩
  · rw [e0]
    simp only [hubRegister, hw, hj]
    rw [e1, e2, e3]
    simp [hq, hs2]
  · rw [e0]
    simp only [hubRegister, hw, hj]
    rw [e1, e2, e3]
  · simp [snapshotPlayers, AddPlayer]

/-- Witness for C4: one existing session (ref 1), a fresh client
(ref 2) registering at (3, 4). -/
theorem register_message_order_witness :
    (hubStep jsonCodec ⟨[⟨1, "player-1", 256, []⟩],
        [("player-1", ⟨10, 20, ⟨1, 2, 3⟩⟩)], false⟩
        (.register ⟨2, "player-2", 256, []⟩ 3 4 ⟨5, 6, 7⟩)).clients =
      ([⟨1, "player-1", 256, []⟩] : List Session).map (fun d => { d with queue := d.queue ++
          [some (Marshal MsgJoin (JoinData.mk "player-2" 3 4 ⟨5, 6, 7⟩).toJson)] }) ++
        [{ (⟨2, "player-2", 256, []⟩ : Session) with queue :=
            [some (Marshal MsgWelcome (WelcomeData.mk "player-2" ⟨5, 6, 7⟩).toJson),
             some (Marshal MsgState (StateData.mk (snapshotPlayers
                (AddPlayer [("player-1", ⟨10, 20, ⟨1, 2, 3⟩⟩)] "player-2" 3 4 ⟨5, 6, 7⟩))).toJson),
             some (Marshal MsgJoin (JoinData.mk "player-2" 3 4 ⟨5, 6, 7⟩).toJson)] }] ∧
    (hubStep jsonCodec ⟨[⟨1, "player-1", 256, []⟩],
        [("player-1", ⟨10, 20, ⟨1, 2, 3⟩⟩)], false⟩
        (.register ⟨2, "player-2", 256, []⟩ 3 4 ⟨5, 6, 7⟩)).state =
      AddPlayer [("player-1", ⟨10, 20, ⟨1, 2, 3⟩⟩)] "player-2" 3 4 ⟨5, 6, 7⟩ ∧
    PlayerInfo.mk "player-2" 3 4 ⟨5, 6, 7⟩ ∈ snapshotPlayers
      (AddPlayer [("player-1", ⟨10, 20, ⟨1, 2, 3⟩⟩)] "player-2" 3 4 ⟨5, 6, 7⟩) :=
  register_message_order ⟨[⟨1, "player-1", 256, []⟩],
      [("player-1", ⟨10, 20, ⟨1, 2, 3⟩⟩)], false⟩
    ⟨2, "player-2", 256, []⟩ 3 4 ⟨5, 6, 7⟩ rfl (by decide) rfl rfl
    (by
      intro d hd
      rcases List.mem_cons.mp hd with rfl | h2
      · decide
      · cases h2)

/-- C10: if envelope encoding fails inside the hub's register handling
(Welcome and Join marshal errors) the hub silently skips those sends
while still adding the client to the live set and the entity to the
store — only the State message (enqueued unconditionally) reaches the
new queue; and if Leave encoding fails inside unregister handling, the
membership and entity removal still complete with no broadcast and no
other queue touched.  Notification and state change are not atomic
under encode failure. -/
theorem marshal_failure_skips_notify (cd : Codec) (h h2 : Hub) (c d : Session)
    (x y : ℚ) (col : Color)
    (hstop : h.stopped = false)
    (hfresh : c.ref ∉ h.clients.map Session.ref)
    (hwFail : cd.marshalWelcome ⟨c.id, col⟩ = none)
    (hjFail : cd.marshalJoin ⟨c.id, x, y, col⟩ = none)
    (hstop2 : h2.stopped = false)
    (hfind : h2.clients.find? (fun s => s.ref = d.ref) = some d)
    (hlFail : cd.marshalLeave ⟨d.id⟩ = none) :
    (hubStep cd h (.register c x y col)).clients =
      h.clients ++ [{ c with queue := c.queue ++
        [buildStateMessage cd (AddPlayer h.state c.id x y col)] }] ∧
    (hubStep cd h (.register c x y col)).state = AddPlayer h.state c.id x y col ∧
    (hubStep cd h2 (.unregister d.ref)).clients =
      h2.clients.filter (fun s => s.ref ≠ d.ref) ∧
    (hubStep cd h2 (.unregister d.ref)).state = RemovePlayer h2.state d.id := by
  have hreg : hubStep cd h (.register c x y col) =
      ⟨h.clients ++ [{ c with queue := c.queue ++
        [buildStateMessage cd (AddPlayer h.state c.id x y col)] }],
       AddPlayer h.state c.id x y col, h.stopped⟩ := by
    have e0 : hubStep cd h (.register c x y col) = hubRegister cd h c x y col := by
      simp [hubStep, hstop]
    rw [e0]
    simp only [hubRegister, hwFail, hjFail]
    rw [sendTo_append_fresh h.clients c c.ref _ rfl hfresh]
  have hunreg : hubStep cd h2 (.unregister d.ref) =
      ⟨h2.clients.filter (fun s => s.ref ≠ d.ref), RemovePlayer h2.state d.id,
       h2.stopped⟩ := by
    have e0 : hubStep cd h2 (.unregister d.ref) = hubUnregister cd h2 d.ref := by
      simp [hubStep, hstop2]
    rw [e0]
    simp only [hubUnregister, hfind, hlFail]
  exact ⟨by rw [hreg], by rw [hreg], by rw [hunreg], by rw [hunreg]⟩

/-- Witness for C10: the always-failing codec, a register into an
empty hub and an unregister of the only session of another hub. -/
theorem marshal_failure_skips_notify_witness :
    (hubStep failCodec ⟨[], [], false⟩
        (.register ⟨0, "player-1", 256, []⟩ 1 2 ⟨3, 4, 5⟩)).clients =
      ([] : List Session) ++ [{ (⟨0, "player-1", 256, []⟩ : Session) with queue :=
        (⟨0, "player-1", 256, []⟩ : Session).queue ++
        [buildStateMessage failCodec (AddPlayer [] "player-1" 1 2 ⟨3, 4, 5⟩)] }] ∧
    (hubStep failCodec ⟨[], [], false⟩
        (.register ⟨0, "player-1", 256, []⟩ 1 2 ⟨3, 4, 5⟩)).state =
      AddPlayer [] "player-1" 1 2 ⟨3, 4, 5⟩ ∧
    (hubStep failCodec ⟨[⟨7, "player-9", 256, []⟩],
        [("player-9", ⟨0, 0, ⟨1, 1, 1⟩⟩)], false⟩
        (.unregister (⟨7, "player-9", 256, []⟩ : Session).ref)).clients =
      ([⟨7, "player-9", 256, []⟩] : List Session).filter
        (fun s => s.ref ≠ (⟨7, "player-9", 256, []⟩ : Session).ref) ∧
    (hubStep failCodec ⟨[⟨7, "player-9", 256, []⟩],
        [("player-9", ⟨0, 0, ⟨1, 1, 1⟩⟩)], false⟩
        (.unregister (⟨7, "player-9", 256, []⟩ : Session).ref)).state =
      RemovePlayer [("player-9", ⟨0, 0, ⟨1, 1, 1⟩⟩)] "player-9" :=
  marshal_failure_skips_notify failCodec ⟨[], [], false⟩
    ⟨[⟨7, "player-9", 256, []⟩], [("player-9", ⟨0, 0, ⟨1, 1, 1⟩⟩)], false⟩
    ⟨0, "player-1", 256, []⟩ ⟨7, "player-9", 256, []⟩ 1 2 ⟨3, 4, 5⟩
    rfl (by decide) rfl rfl rfl rfl rfl
